import Mathlib

/-!
Verification of the `vite-svg-to-ico` plugin core against its specification.

The development shallowly embeds the relevant program parts:

* `src/ico.ts` — the ICO codec (`packIco`, lines 154-182).
* `src/index.ts` — the dev-server favicon cache (`configureServer`, lines
  312-325), the HMR handler (`handleHotUpdate`, lines 442-460).
* `src/html.ts` — `buildFaviconTags` (lines 1407-1454) and the icon-link
  stripping matcher `INJECT_ICON_LINK_RE` (line 1461).

Byte buffers are `List Nat`; machine-integer overflow is modelled explicitly:
Node's `Buffer.writeUInt16LE` / `writeUInt32LE` throw a `RangeError` when the
value does not fit, so `packIco` returns an `Option`, `none` exactly when some
write would throw.
-/

namespace SvgToIco

/-- A rasterized layer: `interface SizedPng { size: number; buffer: Buffer }`
    (`src/ico.ts` lines 85-88).  The PNG payload is an opaque byte list. -/
structure SizedPng where
  size : Nat
  buffer : List Nat
deriving Repr, DecidableEq

/-- Little-endian 16-bit encoding, as written by `buffer.writeUInt16LE`. -/
def u16LE (v : Nat) : List Nat := [v % 256, v / 256 % 256]

/-- Little-endian 32-bit encoding, as written by `buffer.writeUInt32LE`. -/
def u32LE (v : Nat) : List Nat :=
  [v % 256, v / 256 % 256, v / 65536 % 256, v / 16777216 % 256]

/-- Width/height byte of a directory entry:
    `png.size >= 256 ? 0 : png.size` (`src/ico.ts` lines 169-170). -/
def entryWH (size : Nat) : Nat := if size ≥ 256 then 0 else size

/-- The 16-byte ICONDIRENTRY written for one png at a given running offset
    (`src/ico.ts` lines 166-178): width, height, palette count 0, reserved 0,
    color planes 1 (u16 LE), bits per pixel 32 (u16 LE), image data size
    (u32 LE), absolute data offset (u32 LE). -/
def entryBytes (p : SizedPng) (offset : Nat) : List Nat :=
  [entryWH p.size, entryWH p.size, 0, 0] ++ u16LE 1 ++ u16LE 32
    ++ u32LE p.buffer.length ++ u32LE offset

/-- The concatenation of all directory entries; the loop writes entry `i` at
    byte position `16*i` of a zero-initialised buffer, which is exactly the
    concatenation of the 16-byte entries in list order. -/
def packEntriesBytes : List SizedPng → Nat → List Nat
  | [], _ => []
  | p :: ps, off => entryBytes p off ++ packEntriesBytes ps (off + p.buffer.length)

/-- Range checks of the `writeUInt32LE` calls in the entries loop: data size
    and running offset must fit in 32 bits, else Node throws `RangeError`.
    The `writeUInt8` values are always in range (`entryWH` is `< 256`). -/
def entriesOk : List SizedPng → Nat → Bool
  | [], _ => true
  | p :: ps, off =>
      decide (p.buffer.length < 4294967296) && decide (off < 4294967296)
        && entriesOk ps (off + p.buffer.length)

/-- The 6-byte ICONDIR header: reserved 0, type 1, image count
    (`src/ico.ts` lines 158-161). -/
def headerBytes (count : Nat) : List Nat := u16LE 0 ++ u16LE 1 ++ u16LE count

/-- All payloads, verbatim, in input order (`src/ico.ts` line 181). -/
def payloadBytes (pngs : List SizedPng) : List Nat :=
  (pngs.map SizedPng.buffer).flatten

/-- The bytes produced by `packIco` when every write is in range:
    header, then all 16-byte entries, then all payloads. -/
def packIcoBytes (pngs : List SizedPng) : List Nat :=
  headerBytes pngs.length
    ++ packEntriesBytes pngs (6 + 16 * pngs.length)
    ++ payloadBytes pngs

/-- All Node `Buffer` write range checks of `packIco`: the count must fit the
    u16 header field, and every data-size / offset must fit its u32 field. -/
def packOk (pngs : List SizedPng) : Bool :=
  decide (pngs.length < 65536) && entriesOk pngs (6 + 16 * pngs.length)

/-- `packIco` (`src/ico.ts` lines 154-182).  Returns `none` exactly when one
    of the `Buffer` writes would throw a `RangeError`; a throw aborts the call
    before any buffer is returned, so the partially written local buffers are
    unobservable and the function is equivalently the guarded pure
    concatenation `packIcoBytes`. -/
def packIco (pngs : List SizedPng) : Option (List Nat) :=
  if packOk pngs then some (packIcoBytes pngs) else none

/-- Read one byte (0 beyond the end, like `Buffer` reads of valid views). -/
def readU8 (buf : List Nat) (pos : Nat) : Nat := buf.getD pos 0

/-- Read a little-endian u16 field. -/
def readU16 (buf : List Nat) (pos : Nat) : Nat :=
  readU8 buf pos + 256 * readU8 buf (pos + 1)

/-- Read a little-endian u32 field. -/
def readU32 (buf : List Nat) (pos : Nat) : Nat :=
  readU8 buf pos + 256 * readU8 buf (pos + 1) + 65536 * readU8 buf (pos + 2)
    + 16777216 * readU8 buf (pos + 3)

/-- Sum of the payload byte lengths of the first `i` rasters. -/
def sumLenBefore (pngs : List SizedPng) (i : Nat) : Nat :=
  ((pngs.take i).map (fun p => p.buffer.length)).sum

/-- Sum of all payload byte lengths. -/
def totalLen (pngs : List SizedPng) : Nat :=
  (pngs.map (fun p => p.buffer.length)).sum

/-- The `sizes` validation performed upstream in `configResolved`
    (`src/index.ts` lines 264-273): the list must be non-empty and each value
    an integer in [1, 256]. -/
def sizesValid (sizes : List Int) : Bool :=
  !sizes.isEmpty && sizes.all (fun s => 1 ≤ s && s ≤ 256)

/-! ### Dev-server serving cache (`src/index.ts`)

The plugin closure holds `generatedIco`, `generatedPngs` and `cacheId`
(`src/index.ts` lines 88-89, 171).  `cacheId` is `Date.now().toString(36)`,
modelled as the little-endian base-36 digit list of the millisecond
timestamp. -/

/-- Base-36 digits of a positive number, least significant first. -/
def base36Digits : Nat → List Nat
  | 0 => []
  | n + 1 => ((n + 1) % 36) :: base36Digits ((n + 1) / 36)
decreasing_by exact Nat.div_lt_self (Nat.succ_pos n) (by norm_num)

/-- Value of a little-endian base-36 digit list. -/
def ofBase36Digits : List Nat → Nat
  | [] => 0
  | d :: ds => d + 36 * ofBase36Digits ds

/-- `n.toString(36)`: JavaScript renders `0` as `"0"`. -/
def toBase36 (n : Nat) : List Nat :=
  if n = 0 then [0] else base36Digits n

/-- Mutable serving state of one plugin instance. -/
structure ServeState where
  generatedIco : Option (List Nat)
  generatedPngs : Option (List SizedPng)
  cacheId : List Nat
deriving Repr, DecidableEq

/-- The main ICO middleware handler (`src/index.ts` lines 312-325), with the
    outcome of `generateSizedPngs` passed as an oracle (`none` = the awaited
    call rejected).  Returns the new state, whether the rasterization pipeline
    was invoked, and the response (`none` = the request failed via
    `next(e)`).  On failure the `catch` runs before any assignment, so the
    cache fields are untouched. -/
def handleIcoRequest (emitSizes : Bool) (genResult : Option (List SizedPng))
    (st : ServeState) : ServeState × Bool × Option (List Nat) :=
  match st.generatedIco with
  | some ico => (st, false, some ico)
  | none =>
    match genResult with
    | none => (st, true, none)
    | some pngs =>
      match packIco pngs with
      | none => (st, true, none)
      | some ico =>
        ({ st with
            generatedIco := some ico,
            generatedPngs := if emitSizes then some pngs else st.generatedPngs },
         true, some ico)

/-- The HMR handler (`src/index.ts` lines 442-460), with the outcome of
    `generateSizedPngs` as an oracle and `Date.now()` as `now`.  Returns the
    new state and the list of `svg-to-ico:update` payloads sent via
    `server.hot.send` (the handler has no `try`, so a rejected generation
    leaves the state untouched and sends nothing). -/
def handleHotUpdate (emitSizes : Bool) (file input : String) (now : Nat)
    (genResult : Option (List SizedPng)) (st : ServeState) :
    ServeState × List (List Nat) :=
  if file = input then
    match genResult with
    | none => (st, [])
    | some pngs =>
      match packIco pngs with
      | none => (st, [])
      | some ico =>
        ({ generatedIco := some ico,
           generatedPngs := if emitSizes then some pngs else st.generatedPngs,
           cacheId := toBase36 now },
         [toBase36 now])
  else (st, [])

/-! ### Interleaving model of concurrent ICO requests

The middleware body (`src/index.ts` lines 312-325) runs on the event loop:
it is atomic from entry up to the `await generateSizedPngs(...)`, and again
atomic from the resumption (`generatedIco = packIco(pngs)` and `res.end`) to
the end.  Each request is therefore a two-step process; the scheduler picks
which request runs its next step. -/

/-- Program counter of one in-flight request. -/
inductive ReqPc
  | start
  | resumed (pngs : List SizedPng)
  | done
deriving Repr, DecidableEq

/-- System state for two concurrent requests A and B against the shared
    cache.  `genCount` counts invocations of `generateSizedPngs`; responses
    are `none` until sent (`some none` = the request failed). -/
structure Sys where
  cache : Option (List Nat)
  pcA : ReqPc
  pcB : ReqPc
  genCount : Nat
  respA : Option (Option (List Nat))
  respB : Option (Option (List Nat))
deriving Repr, DecidableEq

/-- One step of one request.  `pngsOf k` is the result of the `k`-th
    rasterization invocation (the PNG encoder's output is not pinned by the
    spec, so distinct invocations may yield distinct bytes).
    Returns the new cache, invocation count, pc, and response if one was
    sent. -/
def stepReq (pngsOf : Nat → List SizedPng) (cache : Option (List Nat))
    (genCount : Nat) (pc : ReqPc) :
    Option (List Nat) × Nat × ReqPc × Option (Option (List Nat)) :=
  match pc with
  | .start =>
    match cache with
    | some ico => (cache, genCount, .done, some (some ico))
    | none => (cache, genCount + 1, .resumed (pngsOf genCount), none)
  | .resumed pngs =>
    match packIco pngs with
    | none => (cache, genCount, .done, some none)
    | some ico => (some ico, genCount, .done, some (some ico))
  | .done => (cache, genCount, .done, none)

/-- Scheduler step: run the next step of request A (`true`) or B (`false`). -/
def step (pngsOf : Nat → List SizedPng) (s : Sys) (isA : Bool) : Sys :=
  if isA then
    match stepReq pngsOf s.cache s.genCount s.pcA with
    | (c, g, pc, r) =>
      { s with cache := c, genCount := g, pcA := pc,
               respA := match r with | some v => some v | none => s.respA }
  else
    match stepReq pngsOf s.cache s.genCount s.pcB with
    | (c, g, pc, r) =>
      { s with cache := c, genCount := g, pcB := pc,
               respB := match r with | some v => some v | none => s.respB }

/-- Run a schedule from a state. -/
def run (pngsOf : Nat → List SizedPng) (sched : List Bool) (s : Sys) : Sys :=
  sched.foldl (step pngsOf) s

/-- Both requests pending against an empty cache. -/
def initSys : Sys :=
  { cache := none, pcA := .start, pcB := .start, genCount := 0,
    respA := none, respB := none }

/-! ### HTML tag builder (`src/html.ts`) -/

/-- Metadata for a per-size emitted file (`src/html.ts` lines 1377-1382). -/
structure SizedFileInfo where
  name : String
  size : Nat
  format : String
deriving Repr, DecidableEq

/-- `InjectMode` union `'minimal' | 'full'` (`src/types.ts`). -/
inductive InjectMode
  | minimal
  | full
deriving Repr, DecidableEq

/-- Inputs of `buildFaviconTags` (`src/html.ts` lines 1385-1396).
    `sizedFiles` is optional; an absent field skips the per-size block
    (an empty list is truthy in JS and contributes zero tags). -/
structure FaviconTagOptions where
  output : String
  sizes : List Nat
  sourceEmitted : Bool
  sourceName : String
  inputFormat : String
  mode : InjectMode
  sizedFiles : Option (List SizedFileInfo)
  base : Option String
deriving Repr, DecidableEq

/-- Attributes of a favicon `<link>` descriptor. -/
structure TagAttrs where
  rel : String
  type : String
  href : String
  sizes : String
deriving Repr, DecidableEq

/-- A Vite `HtmlTagDescriptor` as built by `buildFaviconTags`. -/
structure HtmlTag where
  tag : String
  attrs : TagAttrs
  injectTo : String
deriving Repr, DecidableEq

/-- `opts.sizes.map((s) => `{s}x{s}`).join(' ')` (`src/html.ts` line 1418). -/
def sizesAttr (sizes : List Nat) : String :=
  String.intercalate " " (sizes.map (fun s => toString s ++ "x" ++ toString s))

/-- `buildFaviconTags` (`src/html.ts` lines 1407-1454). -/
def buildFaviconTags (opts : FaviconTagOptions) : List HtmlTag :=
  let base := opts.base.getD "/"
  let icoTag : HtmlTag :=
    { tag := "link",
      attrs := { rel := "icon", type := "image/x-icon",
                 href := base ++ opts.output, sizes := sizesAttr opts.sizes },
      injectTo := "head" }
  let sourceTags : List HtmlTag :=
    if opts.inputFormat = "svg" && opts.sourceEmitted then
      [{ tag := "link",
         attrs := { rel := "icon", type := "image/svg+xml",
                    href := base ++ opts.sourceName, sizes := "any" },
         injectTo := "head" }]
    else []
  let sizedTags : List HtmlTag :=
    match opts.mode, opts.sizedFiles with
    | .full, some files =>
      files.map (fun f =>
        { tag := "link",
          attrs := { rel := "icon", type := "image/" ++ f.format,
                     href := base ++ f.name,
                     sizes := toString f.size ++ "x" ++ toString f.size },
          injectTo := "head" })
    | _, _ => []
  icoTag :: (sourceTags ++ sizedTags)

/-! ### The icon-link stripping matcher (`src/html.ts` line 1461)

`INJECT_ICON_LINK_RE = /\s*<link\b[^>]*\brel\s*=\s*["'](?:shortcut\s+)?icon["'][^>]*>\s*/gi`

The matcher below is a direct transliteration of this pattern, specialised to
the `test` question "does a match occur somewhere in the string":

* the leading and trailing `\s*` can always match the empty string, so they
  never influence whether a match exists and are dropped;
* `/i` makes the literals `link`, `rel`, `shortcut`, `icon` case-insensitive
  on their ASCII letters (`eatCI`);
* `\b` after `link` requires the following character to be a non-word
  character; `\b` before `rel` requires the preceding character to be a
  non-word character (word characters are `[A-Za-z0-9_]`);
* `\s*` before a non-whitespace required character, and `\s+` before `icon`,
  are matched by maximal munch, which is equivalent because the character
  required next is never a whitespace character;
* `[^>]*>` after the closing quote succeeds exactly when a `>` occurs in the
  remaining input. -/

/-- The double-quote character. -/
def dq : Char := Char.ofNat 34

/-- The single-quote character. -/
def sq : Char := Char.ofNat 39

/-- JavaScript regex word character `\w` = `[A-Za-z0-9_]`. -/
def isWordChar (c : Char) : Bool :=
  (('a' ≤ c && c ≤ 'z') || ('A' ≤ c && c ≤ 'Z') || ('0' ≤ c && c ≤ '9')
    || c == '_')

/-- JavaScript regex whitespace `\s`, ASCII part: space, tab, line feed,
    vertical tab, form feed, carriage return.  (`\s` additionally matches
    Unicode space characters, which do not occur in the inputs below.) -/
def isWs (c : Char) : Bool :=
  c == ' ' || c == Char.ofNat 9 || c == Char.ofNat 10 || c == Char.ofNat 11
    || c == Char.ofNat 12 || c == Char.ofNat 13

/-- Case-insensitive literal, as `(lowercase, uppercase)` pairs. -/
def ciPat (s : List Char) : List (Char × Char) :=
  s.map (fun c => (c, c.toUpper))

/-- `link`, case-insensitively. -/
def linkLit : List (Char × Char) := ciPat ['l', 'i', 'n', 'k']

/-- `rel`, case-insensitively. -/
def relLit : List (Char × Char) := ciPat ['r', 'e', 'l']

/-- `shortcut`, case-insensitively. -/
def shortcutLit : List (Char × Char) :=
  ciPat ['s', 'h', 'o', 'r', 't', 'c', 'u', 't']

/-- `icon`, case-insensitively. -/
def iconLit : List (Char × Char) := ciPat ['i', 'c', 'o', 'n']

/-- Consume a case-insensitive literal; `some` is the rest of the input. -/
def eatCI : List (Char × Char) → List Char → Option (List Char)
  | [], s => some s
  | _ :: _, [] => none
  | (lo, up) :: ps, c :: cs =>
    if c == lo || c == up then eatCI ps cs else none

/-- Consume one exact character. -/
def eatChar (ch : Char) : List Char → Option (List Char)
  | [] => none
  | c :: cs => if c == ch then some cs else none

/-- Maximal munch of `\s*`. -/
def munchWs : List Char → List Char
  | [] => []
  | c :: cs => if isWs c then munchWs cs else c :: cs

/-- `icon["'][^>]*>` : the literal, a closing quote (the character class
    `["']` — it need not equal the opening quote), then any `>` later. -/
def afterOpenQuote (s : List Char) : Bool :=
  match eatCI iconLit s with
  | none => false
  | some s1 =>
    match s1 with
    | [] => false
    | c :: rest => (c == dq || c == sq) && rest.contains '>'

/-- `(?:shortcut\s+)?icon["'][^>]*>` after the opening quote. -/
def shortcutOrIcon (s : List Char) : Bool :=
  (match eatCI shortcutLit s with
   | none => false
   | some s1 =>
     match s1 with
     | [] => false
     | c :: cs => isWs c && afterOpenQuote (munchWs cs))
  || afterOpenQuote s

/-- `rel\s*=\s*["']...` starting at the current position (the `\b` before
    `rel` is checked by the caller). -/
def tryRel (s : List Char) : Bool :=
  match eatCI relLit s with
  | none => false
  | some s1 =>
    match eatChar '=' (munchWs s1) with
    | none => false
    | some s3 =>
      match munchWs s3 with
      | [] => false
      | q :: s5 => (q == dq || q == sq) && shortcutOrIcon s5

/-- Walk the `[^>]*` region between `link` and `rel`, attempting `rel` at
    every position preceded by a non-word character (`\b`). -/
def scanRel : List Char → Bool → Bool
  | [], _ => false
  | c :: cs, prevNW =>
    if c == '>' then false
    else (prevNW && tryRel (c :: cs)) || scanRel cs (!isWordChar c)

/-- After `<link` was consumed: `\b` requires the next character to be a
    non-word character; the predecessor of the first scanned position is the
    word character `k`, so the scan starts with `prevNW = false`. -/
def afterLink (s : List Char) : Bool :=
  match s with
  | [] => false
  | c :: _ => !isWordChar c && scanRel s false

/-- Does the pattern match starting exactly here? -/
def matchAt (s : List Char) : Bool :=
  match eatChar '<' s with
  | none => false
  | some s1 =>
    match eatCI linkLit s1 with
    | none => false
    | some s2 => afterLink s2

/-- `INJECT_ICON_LINK_RE.test`: does a match start at some position? -/
def regexTest : List Char → Bool
  | [] => false
  | c :: cs => matchAt (c :: cs) || regexTest cs

/-- The matcher on strings. -/
def stripMatcher (s : String) : Bool := regexTest s.data

/-- Case-insensitive equality of a string to a `(lower, upper)` pattern —
    the spec-side notion of "exactly this relation, case-insensitively". -/
def ciEq : List Char → List (Char × Char) → Bool
  | [], [] => true
  | c :: cs, (lo, up) :: ps => (c == lo || c == up) && ciEq cs ps
  | _, _ => false

/-- The rel value `shortcut icon` (a single literal space), CI. -/
def shortcutSpaceIconLit : List (Char × Char) :=
  shortcutLit ++ (' ', ' ') :: iconLit

/-- A link element `<link ATTRS rel=Q REL Q REST>`: arbitrary attribute text
    before `rel` (ending in a space) and after the closing quote. -/
def renderLink (attrs : List Char) (q : Char) (rel rest : List Char) :
    List Char :=
  '<' :: 'l' :: 'i' :: 'n' :: 'k' :: ((' ' :: attrs)
    ++ ((' ' :: 'r' :: 'e' :: 'l' :: '=' :: q :: rel) ++ (q :: rest ++ ['>'])))

/-- A simple link element `<link rel=QRELQ href=QHREFQ>`. -/
def renderSimpleLink (q : Char) (rel href : List Char) : List Char :=
  '<' :: 'l' :: 'i' :: 'n' :: 'k' :: ' ' :: 'r' :: 'e' :: 'l' :: '=' :: q ::
    (rel ++ (q :: ' ' :: 'h' :: 'r' :: 'e' :: 'f' :: '=' :: q ::
      (href ++ [q, '>'])))

/-- A character that is neither `>` nor a quote. -/
def cleanChar (c : Char) : Bool :=
  !(c == '>') && !(c == dq) && !(c == sq)

/-- A CI pattern none of whose alternatives is `>` or a quote. -/
def patOkB (pat : List (Char × Char)) : Bool :=
  pat.all (fun pr =>
    !(dq == pr.1 || dq == pr.2) && !(sq == pr.1 || sq == pr.2)
      && !(('>' : Char) == pr.1 || ('>' : Char) == pr.2))

/-- The characters of the rel value `apple-touch-icon`. -/
def appleTouchIconRel : List Char :=
  ['a', 'p', 'p', 'l', 'e', '-', 't', 'o', 'u', 'c', 'h', '-', 'i', 'c', 'o', 'n']

/-- The characters of the rel value `stylesheet`. -/
def stylesheetRel : List Char :=
  ['s', 't', 'y', 'l', 'e', 's', 'h', 'e', 'e', 't']

/-! ## Theorems -/

/-! ### Generic reading lemmas -/

theorem readU8_shift (A B : List Nat) (k : Nat) :
    readU8 (A ++ B) (A.length + k) = readU8 B k := by
  unfold readU8
  rw [List.getD_append_right A B 0 (A.length + k) (Nat.le_add_right _ _)]
  congr 1
  omega

theorem readU16_shift (A B : List Nat) (k : Nat) :
    readU16 (A ++ B) (A.length + k) = readU16 B k := by
  unfold readU16
  rw [show A.length + k + 1 = A.length + (k + 1) by omega]
  rw [readU8_shift, readU8_shift]

theorem readU32_shift (A B : List Nat) (k : Nat) :
    readU32 (A ++ B) (A.length + k) = readU32 B k := by
  unfold readU32
  rw [show A.length + k + 1 = A.length + (k + 1) by omega,
      show A.length + k + 2 = A.length + (k + 2) by omega,
      show A.length + k + 3 = A.length + (k + 3) by omega]
  rw [readU8_shift, readU8_shift, readU8_shift, readU8_shift]

theorem readU16_u16LE (v : Nat) (h : v < 65536) (rest : List Nat) :
    readU16 (u16LE v ++ rest) 0 = v := by
  show v % 256 + 256 * (v / 256 % 256) = v
  omega

theorem readU32_u32LE (v : Nat) (h : v < 4294967296) (rest : List Nat) :
    readU32 (u32LE v ++ rest) 0 = v := by
  show v % 256 + 256 * (v / 256 % 256) + 65536 * (v / 65536 % 256)
      + 16777216 * (v / 16777216 % 256) = v
  omega

/-! ### Structural lemmas about `packIco` -/

theorem packIco_inv {pngs : List SizedPng} {buf : List Nat}
    (hp : packIco pngs = some buf) :
    packOk pngs = true ∧ buf = packIcoBytes pngs := by
  unfold packIco at hp
  by_cases h : packOk pngs = true
  · simp [h] at hp
    exact ⟨h, hp.symm⟩
  · simp [h] at hp

theorem entryBytes_length (p : SizedPng) (off : Nat) :
    (entryBytes p off).length = 16 := by
  simp [entryBytes, u16LE, u32LE]

theorem headerBytes_length (c : Nat) : (headerBytes c).length = 6 := by
  simp [headerBytes, u16LE]

theorem packEntriesBytes_length (pngs : List SizedPng) (off : Nat) :
    (packEntriesBytes pngs off).length = 16 * pngs.length := by
  induction pngs generalizing off with
  | nil => simp [packEntriesBytes]
  | cons p ps ih =>
    simp [packEntriesBytes, entryBytes_length, ih]
    omega

theorem payloadBytes_length (pngs : List SizedPng) :
    (payloadBytes pngs).length = totalLen pngs := by
  simp only [payloadBytes, List.length_flatten, List.map_map, totalLen]
  rfl

theorem sumLenBefore_zero (pngs : List SizedPng) : sumLenBefore pngs 0 = 0 := by
  simp [sumLenBefore]

theorem sumLenBefore_cons (p : SizedPng) (ps : List SizedPng) (i : Nat) :
    sumLenBefore (p :: ps) (i + 1) = p.buffer.length + sumLenBefore ps i := by
  simp [sumLenBefore]

theorem packEntries_decomp (pngs : List SizedPng) (off i : Nat)
    (h : i < pngs.length) :
    ∃ pre post, packEntriesBytes pngs off
        = pre ++ entryBytes (pngs.get ⟨i, h⟩) (off + sumLenBefore pngs i) ++ post
      ∧ pre.length = 16 * i := by
  induction pngs generalizing off i with
  | nil => simp at h
  | cons p ps ih =>
    cases i with
    | zero =>
      refine ⟨[], packEntriesBytes ps (off + p.buffer.length), ?_, by simp⟩
      simp [packEntriesBytes, sumLenBefore_zero]
    | succ i =>
      obtain ⟨pre, post, heq, hlen⟩ :=
        ih (off + p.buffer.length) i (by simp only [List.length_cons] at h; omega)
      refine ⟨entryBytes p off ++ pre, post, ?_, ?_⟩
      · show entryBytes p off ++ packEntriesBytes ps (off + p.buffer.length) = _
        rw [heq, sumLenBefore_cons, ← Nat.add_assoc]
        show _ = (entryBytes p off ++ pre)
          ++ entryBytes (ps.get ⟨i, by simp only [List.length_cons] at h; omega⟩)
              (off + p.buffer.length + sumLenBefore ps i) ++ post
        simp [List.append_assoc]
      · simp [entryBytes_length, hlen]
        omega

theorem payload_decomp (pngs : List SizedPng) (i : Nat) (h : i < pngs.length) :
    ∃ pre post, payloadBytes pngs = pre ++ (pngs.get ⟨i, h⟩).buffer ++ post
      ∧ pre.length = sumLenBefore pngs i := by
  induction pngs generalizing i with
  | nil => simp at h
  | cons p ps ih =>
    cases i with
    | zero =>
      refine ⟨[], payloadBytes ps, ?_, by simp [sumLenBefore_zero]⟩
      simp [payloadBytes]
    | succ i =>
      obtain ⟨pre, post, heq, hlen⟩ :=
        ih i (by simp only [List.length_cons] at h; omega)
      refine ⟨p.buffer ++ pre, post, ?_, ?_⟩
      · simp [payloadBytes] at heq ⊢
        simp [heq]
      · simp [hlen, sumLenBefore_cons]

theorem entriesOk_bounds (pngs : List SizedPng) (off i : Nat)
    (hok : entriesOk pngs off = true) (h : i < pngs.length) :
    (pngs.get ⟨i, h⟩).buffer.length < 4294967296
      ∧ off + sumLenBefore pngs i < 4294967296 := by
  induction pngs generalizing off i with
  | nil => simp at h
  | cons p ps ih =>
    simp only [entriesOk, Bool.and_eq_true, decide_eq_true_eq] at hok
    cases i with
    | zero =>
      refine ⟨hok.1.1, ?_⟩
      rw [sumLenBefore_zero]
      simpa using hok.1.2
    | succ i =>
      obtain ⟨h1, h2⟩ := ih (off + p.buffer.length) i hok.2
        (by simp only [List.length_cons] at h; omega)
      refine ⟨by simpa using h1, ?_⟩
      rw [sumLenBefore_cons]
      omega

theorem packOk_inv {pngs : List SizedPng} (hok : packOk pngs = true) :
    pngs.length < 65536 ∧ entriesOk pngs (6 + 16 * pngs.length) = true := by
  unfold packOk at hok
  simp only [Bool.and_eq_true, decide_eq_true_eq] at hok
  exact hok

theorem drop_shift (A B : List Nat) (k : Nat) :
    (A ++ B).drop (A.length + k) = B.drop k := by
  induction A with
  | nil => simp
  | cons a A ih =>
    have h : (a :: A).length + k = (A.length + k) + 1 := by
      simp [List.length_cons]
      omega
    rw [List.cons_append, h, List.drop_succ_cons, ih]

theorem take_exact (A B : List Nat) : (A ++ B).take A.length = A := by
  induction A with
  | nil => simp
  | cons a A ih => simp [List.take_succ_cons, ih]

theorem drop_take_decomp (pre mid post : List Nat) :
    ((pre ++ mid ++ post).drop pre.length).take mid.length = mid := by
  rw [List.append_assoc]
  have h := drop_shift pre (mid ++ post) 0
  simp only [Nat.add_zero, List.drop_zero] at h
  rw [h, take_exact]

theorem readU8_decomp (pre mid post : List Nat) (k : Nat) :
    readU8 (pre ++ mid ++ post) (pre.length + k) = readU8 (mid ++ post) k := by
  rw [List.append_assoc]
  exact readU8_shift pre (mid ++ post) k

theorem readU32_decomp (pre mid post : List Nat) (k : Nat) :
    readU32 (pre ++ mid ++ post) (pre.length + k) = readU32 (mid ++ post) k := by
  rw [List.append_assoc]
  exact readU32_shift pre (mid ++ post) k

theorem entry_readU32_size (p : SizedPng) (off : Nat) (post : List Nat)
    (hl : p.buffer.length < 4294967296) :
    readU32 (entryBytes p off ++ post) 8 = p.buffer.length := by
  have hsplit : entryBytes p off ++ post
      = ([entryWH p.size, entryWH p.size, 0, 0] ++ u16LE 1 ++ u16LE 32)
        ++ (u32LE p.buffer.length ++ (u32LE off ++ post)) := by
    simp [entryBytes, List.append_assoc]
  rw [hsplit]
  have h8 : (8 : Nat)
      = ([entryWH p.size, entryWH p.size, 0, 0] ++ u16LE 1 ++ u16LE 32).length
        + 0 := by
    simp [u16LE]
  rw [h8, readU32_shift]
  exact readU32_u32LE p.buffer.length hl (u32LE off ++ post)

theorem entry_readU32_offset (p : SizedPng) (off : Nat) (post : List Nat)
    (ho : off < 4294967296) :
    readU32 (entryBytes p off ++ post) 12 = off := by
  have hsplit : entryBytes p off ++ post
      = ([entryWH p.size, entryWH p.size, 0, 0] ++ u16LE 1 ++ u16LE 32
          ++ u32LE p.buffer.length)
        ++ (u32LE off ++ post) := by
    simp [entryBytes, List.append_assoc]
  rw [hsplit]
  have h12 : (12 : Nat)
      = ([entryWH p.size, entryWH p.size, 0, 0] ++ u16LE 1 ++ u16LE 32
          ++ u32LE p.buffer.length).length + 0 := by
    simp [u16LE, u32LE]
  rw [h12, readU32_shift]
  exact readU32_u32LE off ho post

theorem packIcoBytes_entry_decomp (pngs : List SizedPng) (i : Nat)
    (hi : i < pngs.length) :
    ∃ pre post, packIcoBytes pngs
        = pre ++ entryBytes (pngs.get ⟨i, hi⟩)
            (6 + 16 * pngs.length + sumLenBefore pngs i) ++ post
      ∧ pre.length = 6 + 16 * i := by
  obtain ⟨pre, post, heq, hpre⟩ :=
    packEntries_decomp pngs (6 + 16 * pngs.length) i hi
  refine ⟨headerBytes pngs.length ++ pre, post ++ payloadBytes pngs, ?_, ?_⟩
  · unfold packIcoBytes
    rw [heq]
    simp [List.append_assoc]
  · simp [headerBytes_length, hpre]

theorem packIcoBytes_payload_decomp (pngs : List SizedPng) (i : Nat)
    (hi : i < pngs.length) :
    ∃ pre post, packIcoBytes pngs = pre ++ (pngs.get ⟨i, hi⟩).buffer ++ post
      ∧ pre.length = 6 + 16 * pngs.length + sumLenBefore pngs i := by
  obtain ⟨pre, post, heq, hpre⟩ := payload_decomp pngs i hi
  refine ⟨(headerBytes pngs.length
      ++ packEntriesBytes pngs (6 + 16 * pngs.length)) ++ pre, post, ?_, ?_⟩
  · unfold packIcoBytes
    rw [heq]
    simp [List.append_assoc]
  · simp [headerBytes_length, packEntriesBytes_length, hpre]
    omega

theorem packIcoBytes_size_field (pngs : List SizedPng)
    (hok : packOk pngs = true) (i : Nat) (hi : i < pngs.length) :
    readU32 (packIcoBytes pngs) (6 + 16 * i + 8)
      = (pngs.get ⟨i, hi⟩).buffer.length := by
  obtain ⟨hcount, hent⟩ := packOk_inv hok
  obtain ⟨hlen, hoff⟩ := entriesOk_bounds pngs (6 + 16 * pngs.length) i hent hi
  obtain ⟨pre, post, heq, hpre⟩ := packIcoBytes_entry_decomp pngs i hi
  rw [heq, show 6 + 16 * i + 8 = pre.length + 8 by omega, readU32_decomp]
  exact entry_readU32_size _ _ _ hlen

theorem packIcoBytes_offset_field (pngs : List SizedPng)
    (hok : packOk pngs = true) (i : Nat) (hi : i < pngs.length) :
    readU32 (packIcoBytes pngs) (6 + 16 * i + 12)
      = 6 + 16 * pngs.length + sumLenBefore pngs i := by
  obtain ⟨hcount, hent⟩ := packOk_inv hok
  obtain ⟨hlen, hoff⟩ := entriesOk_bounds pngs (6 + 16 * pngs.length) i hent hi
  obtain ⟨pre, post, heq, hpre⟩ := packIcoBytes_entry_decomp pngs i hi
  rw [heq, show 6 + 16 * i + 12 = pre.length + 12 by omega, readU32_decomp]
  exact entry_readU32_offset _ _ _ hoff

theorem packIcoBytes_wh_fields (pngs : List SizedPng) (i : Nat)
    (hi : i < pngs.length) :
    readU8 (packIcoBytes pngs) (6 + 16 * i) = entryWH (pngs.get ⟨i, hi⟩).size
      ∧ readU8 (packIcoBytes pngs) (6 + 16 * i + 1)
          = entryWH (pngs.get ⟨i, hi⟩).size := by
  obtain ⟨pre, post, heq, hpre⟩ := packIcoBytes_entry_decomp pngs i hi
  constructor
  · rw [heq, show 6 + 16 * i = pre.length + 0 by omega, readU8_decomp]
    rfl
  · rw [heq, show 6 + 16 * i + 1 = pre.length + 1 by omega, readU8_decomp]
    rfl

theorem packIcoBytes_payload_slice (pngs : List SizedPng) (i : Nat)
    (hi : i < pngs.length) :
    ((packIcoBytes pngs).drop (6 + 16 * pngs.length + sumLenBefore pngs i)).take
        (pngs.get ⟨i, hi⟩).buffer.length = (pngs.get ⟨i, hi⟩).buffer := by
  obtain ⟨pre, post, heq, hpre⟩ := packIcoBytes_payload_decomp pngs i hi
  rw [heq, ← hpre]
  exact drop_take_decomp pre _ post

theorem sumLenBefore_succ (pngs : List SizedPng) (i : Nat)
    (h : i < pngs.length) :
    sumLenBefore pngs (i + 1)
      = sumLenBefore pngs i + (pngs.get ⟨i, h⟩).buffer.length := by
  induction pngs generalizing i with
  | nil => simp at h
  | cons p ps ih =>
    cases i with
    | zero => simp [sumLenBefore_cons, sumLenBefore_zero, sumLenBefore]
    | succ i =>
      rw [sumLenBefore_cons, sumLenBefore_cons,
        ih i (by simp only [List.length_cons] at h; omega)]
      simp [List.get_cons_succ]
      omega

theorem sumLenBefore_all (pngs : List SizedPng) :
    sumLenBefore pngs pngs.length = totalLen pngs := by
  simp [sumLenBefore, totalLen]

/-! ### Claim theorems for the ICO codec -/

/-- C1: for every non-empty raster list with sizes in [1,256], in the buffer
    returned by `packIco` the directory entries and payloads appear in input
    order: entry `i` carries data-size `len(rasters[i].buffer)` and
    data-offset `6 + 16*count + sum of payload lengths before i`, and the
    bytes at that offset are exactly `rasters[i].buffer`. -/
theorem claim1_packIco_entry_fields_and_payload_order
    (pngs : List SizedPng) (buf : List Nat)
    (hne : pngs ≠ [])
    (hsz : ∀ p ∈ pngs, 1 ≤ p.size ∧ p.size ≤ 256)
    (hp : packIco pngs = some buf)
    (i : Nat) (hi : i < pngs.length) :
    readU32 buf (6 + 16 * i + 8) = (pngs.get ⟨i, hi⟩).buffer.length
      ∧ readU32 buf (6 + 16 * i + 12)
          = 6 + 16 * pngs.length + sumLenBefore pngs i
      ∧ (buf.drop (6 + 16 * pngs.length + sumLenBefore pngs i)).take
            (pngs.get ⟨i, hi⟩).buffer.length
          = (pngs.get ⟨i, hi⟩).buffer := by
  obtain ⟨hok, rfl⟩ := packIco_inv hp
  exact ⟨packIcoBytes_size_field pngs hok i hi,
    packIcoBytes_offset_field pngs hok i hi,
    packIcoBytes_payload_slice pngs i hi⟩

/-- Witness for C1 at a concrete input. -/
theorem claim1_witness :
    readU32 (packIcoBytes [⟨16, [1, 2, 3]⟩, ⟨256, [9]⟩]) (6 + 16 * 1 + 8) = 1
      ∧ readU32 (packIcoBytes [⟨16, [1, 2, 3]⟩, ⟨256, [9]⟩]) (6 + 16 * 1 + 12)
          = 6 + 16 * 2 + 3
      ∧ ((packIcoBytes [⟨16, [1, 2, 3]⟩, ⟨256, [9]⟩]).drop
            (6 + 16 * 2 + 3)).take 1 = [9] := by
  have h := claim1_packIco_entry_fields_and_payload_order
    [⟨16, [1, 2, 3]⟩, ⟨256, [9]⟩] (packIcoBytes [⟨16, [1, 2, 3]⟩, ⟨256, [9]⟩])
    (by decide) (by decide) (by decide) 1 (by decide)
  simpa [sumLenBefore] using h

/-- C2: for every non-empty raster list with sizes in [1,256], the buffer
    returned by `packIco` starts with a 6-byte header: reserved (u16 LE at
    0) is 0, type (u16 LE at 2) is 1, count (u16 LE at 4) is the input
    length. -/
theorem claim2_packIco_header
    (pngs : List SizedPng) (buf : List Nat)
    (hne : pngs ≠ [])
    (hsz : ∀ p ∈ pngs, 1 ≤ p.size ∧ p.size ≤ 256)
    (hp : packIco pngs = some buf) :
    readU16 buf 0 = 0 ∧ readU16 buf 2 = 1 ∧ readU16 buf 4 = pngs.length := by
  obtain ⟨hok, rfl⟩ := packIco_inv hp
  obtain ⟨hcount, -⟩ := packOk_inv hok
  have h0 : packIcoBytes pngs
      = u16LE 0 ++ (u16LE 1 ++ (u16LE pngs.length
          ++ (packEntriesBytes pngs (6 + 16 * pngs.length)
              ++ payloadBytes pngs))) := by
    simp [packIcoBytes, headerBytes, List.append_assoc]
  have h1 : packIcoBytes pngs
      = (u16LE 0 ++ u16LE 1) ++ (u16LE pngs.length
          ++ (packEntriesBytes pngs (6 + 16 * pngs.length)
              ++ payloadBytes pngs)) := by
    simp [packIcoBytes, headerBytes, List.append_assoc]
  refine ⟨?_, ?_, ?_⟩
  · rw [h0]
    exact readU16_u16LE 0 (by norm_num) _
  · rw [h0, show (2 : Nat) = (u16LE 0).length + 0 from rfl, readU16_shift]
    exact readU16_u16LE 1 (by norm_num) _
  · rw [h1, show (4 : Nat) = (u16LE 0 ++ u16LE 1).length + 0 from rfl,
      readU16_shift]
    exact readU16_u16LE pngs.length hcount _

/-- Witness for C2 at a concrete input. -/
theorem claim2_witness :
    readU16 (packIcoBytes [⟨16, [1, 2, 3]⟩, ⟨256, [9]⟩]) 0 = 0
      ∧ readU16 (packIcoBytes [⟨16, [1, 2, 3]⟩, ⟨256, [9]⟩]) 2 = 1
      ∧ readU16 (packIcoBytes [⟨16, [1, 2, 3]⟩, ⟨256, [9]⟩]) 4 = 2 :=
  claim2_packIco_header [⟨16, [1, 2, 3]⟩, ⟨256, [9]⟩]
    (packIcoBytes [⟨16, [1, 2, 3]⟩, ⟨256, [9]⟩])
    (by decide) (by decide) (by decide)

/-- C3: in a buffer returned by `packIco`, a raster of size 256 gets width
    and height bytes 0, and a raster of size in [1,255] gets its size
    literally in both bytes. -/
theorem claim3_packIco_width_height
    (pngs : List SizedPng) (buf : List Nat)
    (hsz : ∀ p ∈ pngs, 1 ≤ p.size ∧ p.size ≤ 256)
    (hp : packIco pngs = some buf)
    (i : Nat) (hi : i < pngs.length) :
    ((pngs.get ⟨i, hi⟩).size = 256 →
        readU8 buf (6 + 16 * i) = 0 ∧ readU8 buf (6 + 16 * i + 1) = 0)
      ∧ ((pngs.get ⟨i, hi⟩).size ≤ 255 →
        readU8 buf (6 + 16 * i) = (pngs.get ⟨i, hi⟩).size
          ∧ readU8 buf (6 + 16 * i + 1) = (pngs.get ⟨i, hi⟩).size) := by
  obtain ⟨hok, rfl⟩ := packIco_inv hp
  obtain ⟨hw, hh⟩ := packIcoBytes_wh_fields pngs i hi
  constructor
  · intro h256
    rw [hw, hh, entryWH, h256]
    simp
  · intro h255
    rw [hw, hh, entryWH, if_neg (by omega)]
    exact ⟨rfl, rfl⟩

/-- Witness for C3 at a concrete input. -/
theorem claim3_witness :
    readU8 (packIcoBytes [⟨16, [1, 2, 3]⟩, ⟨256, [9]⟩]) (6 + 16 * 1) = 0
      ∧ readU8 (packIcoBytes [⟨16, [1, 2, 3]⟩, ⟨256, [9]⟩]) (6 + 16 * 0)
          = 16 := by
  have h := claim3_packIco_width_height
    [⟨16, [1, 2, 3]⟩, ⟨256, [9]⟩] (packIcoBytes [⟨16, [1, 2, 3]⟩, ⟨256, [9]⟩])
    (by decide) (by decide)
  exact ⟨((h 1 (by decide)).1 (by decide)).1, ((h 0 (by decide)).2 (by decide)).1⟩

/-- C6: the buffer returned by `packIco` on a non-empty list has total
    length `6 + 16*count + sum of payload lengths`, which equals the last
    entry's offset field plus the last entry's data-size field (no gaps or
    overlaps between header, entries and payloads). -/
theorem claim6_packIco_total_length
    (pngs : List SizedPng) (buf : List Nat)
    (hne : pngs ≠ [])
    (hsz : ∀ p ∈ pngs, 1 ≤ p.size ∧ p.size ≤ 256)
    (hp : packIco pngs = some buf) :
    buf.length = 6 + 16 * pngs.length + totalLen pngs
      ∧ buf.length = readU32 buf (6 + 16 * (pngs.length - 1) + 12)
          + readU32 buf (6 + 16 * (pngs.length - 1) + 8) := by
  obtain ⟨hok, rfl⟩ := packIco_inv hp
  have hn : 1 ≤ pngs.length := List.length_pos.mpr hne
  have hi : pngs.length - 1 < pngs.length := by omega
  have hlen : (packIcoBytes pngs).length
      = 6 + 16 * pngs.length + totalLen pngs := by
    simp [packIcoBytes, headerBytes_length, packEntriesBytes_length,
      payloadBytes_length]
    omega
  refine ⟨hlen, ?_⟩
  rw [packIcoBytes_offset_field pngs hok (pngs.length - 1) hi,
    packIcoBytes_size_field pngs hok (pngs.length - 1) hi, hlen]
  have hsucc := sumLenBefore_succ pngs (pngs.length - 1) hi
  rw [show pngs.length - 1 + 1 = pngs.length by omega, sumLenBefore_all] at hsucc
  omega

/-- Witness for C6 at a concrete input. -/
theorem claim6_witness :
    (packIcoBytes [⟨16, [1, 2, 3]⟩, ⟨256, [9]⟩]).length = 6 + 16 * 2 + 4
      ∧ (packIcoBytes [⟨16, [1, 2, 3]⟩, ⟨256, [9]⟩]).length
          = readU32 (packIcoBytes [⟨16, [1, 2, 3]⟩, ⟨256, [9]⟩]) (6 + 16 * 1 + 12)
            + readU32 (packIcoBytes [⟨16, [1, 2, 3]⟩, ⟨256, [9]⟩]) (6 + 16 * 1 + 8) := by
  have h := claim6_packIco_total_length
    [⟨16, [1, 2, 3]⟩, ⟨256, [9]⟩] (packIcoBytes [⟨16, [1, 2, 3]⟩, ⟨256, [9]⟩])
    (by decide) (by decide) (by decide)
  simpa [totalLen] using h

/-- C10: `packIco` is total on the empty list: it raises no error and
    returns exactly the 6-byte header `reserved=0, type=1, count=0`; the
    non-empty precondition is enforced only upstream by the configuration
    validation (`sizesValid`), which rejects an empty size list. -/
theorem claim10_packIco_empty_total :
    packIco [] = some [0, 0, 1, 0, 0, 0]
      ∧ (packIcoBytes []).length = 6
      ∧ readU16 (packIcoBytes []) 0 = 0
      ∧ readU16 (packIcoBytes []) 2 = 1
      ∧ readU16 (packIcoBytes []) 4 = 0
      ∧ sizesValid [] = false := by
  decide

/-! ### Cache-token lemmas -/

theorem ofBase36_base36Digits (n : Nat) :
    ofBase36Digits (base36Digits n) = n := by
  induction n using Nat.strong_induction_on with
  | _ n ih =>
    match n with
    | 0 => simp [base36Digits, ofBase36Digits]
    | m + 1 =>
      rw [base36Digits, ofBase36Digits,
        ih ((m + 1) / 36) (Nat.div_lt_self (Nat.succ_pos m) (by norm_num))]
      omega

theorem toBase36_injective {a b : Nat} (h : toBase36 a = toBase36 b) :
    a = b := by
  have ha := ofBase36_base36Digits a
  have hb := ofBase36_base36Digits b
  unfold toBase36 at h
  by_cases h0 : a = 0 <;> by_cases h1 : b = 0
  · omega
  · rw [if_pos h0, if_neg h1] at h
    have hc := congrArg ofBase36Digits h
    rw [hb] at hc
    simp [ofBase36Digits] at hc
    omega
  · rw [if_neg h0, if_pos h1] at h
    have hc := congrArg ofBase36Digits h
    rw [ha] at hc
    simp [ofBase36Digits] at hc
    omega
  · rw [if_neg h0, if_neg h1] at h
    have hc := congrArg ofBase36Digits h
    rw [ha, hb] at hc
    exact hc

/-! ### Claim theorems for the serving state machine -/

/-- C9: a rasterization failure while handling an ICO request against an
    empty cache is surfaced as a failure of that request, the cache is left
    untouched (no artifact, no negative result), and the next request
    invokes the pipeline again from scratch and succeeds if the pipeline
    does. -/
theorem claim9_request_failure_not_cached
    (es : Bool) (st : ServeState) (pngs : List SizedPng) (buf : List Nat)
    (hempty : st.generatedIco = none)
    (hpack : packIco pngs = some buf) :
    handleIcoRequest es none st = (st, true, none)
      ∧ (handleIcoRequest es (some pngs) st).2.1 = true
      ∧ (handleIcoRequest es (some pngs) st).2.2 = some buf
      ∧ (handleIcoRequest es (some pngs) st).1.generatedIco = some buf := by
  simp [handleIcoRequest, hempty, hpack]

/-- Witness for C9 at a concrete input. -/
theorem claim9_witness :
    handleIcoRequest false none
        ⟨none, none, toBase36 1⟩ = (⟨none, none, toBase36 1⟩, true, none)
      ∧ (handleIcoRequest false (some [⟨16, [7]⟩])
            ⟨none, none, toBase36 1⟩).2.1 = true
      ∧ (handleIcoRequest false (some [⟨16, [7]⟩])
            ⟨none, none, toBase36 1⟩).2.2 = some (packIcoBytes [⟨16, [7]⟩])
      ∧ (handleIcoRequest false (some [⟨16, [7]⟩])
            ⟨none, none, toBase36 1⟩).1.generatedIco
          = some (packIcoBytes [⟨16, [7]⟩]) :=
  claim9_request_failure_not_cached false ⟨none, none, toBase36 1⟩
    [⟨16, [7]⟩] (packIcoBytes [⟨16, [7]⟩]) (by decide) (by decide)

/-- C4 counterexample: the middleware checks `if (!generatedIco)` and then
    awaits the pipeline with no single-flight guard, so in the interleaving
    where both first requests observe the empty cache before either
    resumes, the rasterization pipeline is invoked twice — not exactly
    once — and (since the PNG encoder's bytes are not pinned across
    invocations) the two responses need not be byte-identical. -/
theorem claim4_counterexample :
    (run (fun k => [⟨16, [k]⟩]) [true, false, true, false] initSys).genCount = 2
      ∧ (run (fun k => [⟨16, [k]⟩]) [true, false, true, false] initSys).respA
          ≠ (run (fun k => [⟨16, [k]⟩]) [true, false, true, false] initSys).respB := by
  decide

/-- C4 amended: two concurrent first requests that both observe the empty
    cache each invoke the rasterization pipeline once (two invocations in
    total), each responding with the buffer packed from its own invocation;
    when the requests are serialized, only one invocation occurs and both
    receive the identical cached buffer. -/
theorem claim4_amended_no_single_flight
    (pngsOf : Nat → List SizedPng) (b0 b1 : List Nat)
    (h0 : packIco (pngsOf 0) = some b0)
    (h1 : packIco (pngsOf 1) = some b1) :
    (run pngsOf [true, false, true, false] initSys).genCount = 2
      ∧ (run pngsOf [true, false, true, false] initSys).respA = some (some b0)
      ∧ (run pngsOf [true, false, true, false] initSys).respB = some (some b1)
      ∧ (run pngsOf [true, true, false, false] initSys).genCount = 1
      ∧ (run pngsOf [true, true, false, false] initSys).respA = some (some b0)
      ∧ (run pngsOf [true, true, false, false] initSys).respB = some (some b0) := by
  simp [run, step, stepReq, initSys, h0, h1]

/-- Witness for the amended C4 at a concrete generator. -/
theorem claim4_amended_witness :
    (run (fun k => [⟨16, [k]⟩]) [true, false, true, false] initSys).genCount = 2
      ∧ (run (fun k => [⟨16, [k]⟩]) [true, false, true, false] initSys).respA
          = some (some (packIcoBytes [⟨16, [0]⟩]))
      ∧ (run (fun k => [⟨16, [k]⟩]) [true, false, true, false] initSys).respB
          = some (some (packIcoBytes [⟨16, [1]⟩]))
      ∧ (run (fun k => [⟨16, [k]⟩]) [true, true, false, false] initSys).genCount = 1
      ∧ (run (fun k => [⟨16, [k]⟩]) [true, true, false, false] initSys).respA
          = some (some (packIcoBytes [⟨16, [0]⟩]))
      ∧ (run (fun k => [⟨16, [k]⟩]) [true, true, false, false] initSys).respB
          = some (some (packIcoBytes [⟨16, [0]⟩])) :=
  claim4_amended_no_single_flight (fun k => [⟨16, [k]⟩])
    (packIcoBytes [⟨16, [0]⟩]) (packIcoBytes [⟨16, [1]⟩])
    (by decide) (by decide)

/-- C5 counterexample: the token is `Date.now().toString(36)`, so a change
    event in the same millisecond as the previous mint produces the same
    token — the new `cacheToken` does not differ from the token before the
    event, refuting the claim as stated (the other parts hold: the state is
    repopulated and exactly one signal is sent). -/
theorem claim5_counterexample :
    (handleHotUpdate false "/p/icon.svg" "/p/icon.svg" 5 (some [⟨16, [7]⟩])
        ⟨some (packIcoBytes [⟨16, [3]⟩]), none, toBase36 5⟩).1.cacheId
      = toBase36 5 := by
  rfl

/-- C5 amended: a change event for the resolved input path against a
    populated cache repopulates the cache and sends exactly one live-update
    signal carrying the new token; the new token differs from the previous
    one whenever the event's millisecond timestamp differs from the one
    that minted the previous token. -/
theorem claim5_amended_hot_update
    (es : Bool) (file input : String) (now tPrev : Nat)
    (pngs : List SizedPng) (ico oldIco : List Nat) (st : ServeState)
    (hfile : file = input)
    (hpack : packIco pngs = some ico)
    (hpop : st.generatedIco = some oldIco)
    (htok : st.cacheId = toBase36 tPrev)
    (hms : tPrev ≠ now) :
    (handleHotUpdate es file input now (some pngs) st).1.generatedIco = some ico
      ∧ (handleHotUpdate es file input now (some pngs) st).2
          = [(handleHotUpdate es file input now (some pngs) st).1.cacheId]
      ∧ (handleHotUpdate es file input now (some pngs) st).1.cacheId
          ≠ st.cacheId := by
  have hred : handleHotUpdate es file input now (some pngs) st
      = ({ generatedIco := some ico,
           generatedPngs := if es then some pngs else st.generatedPngs,
           cacheId := toBase36 now }, [toBase36 now]) := by
    unfold handleHotUpdate
    rw [if_pos hfile]
    simp [hpack]
  rw [hred]
  refine ⟨rfl, rfl, ?_⟩
  rw [htok]
  intro hcontra
  exact hms (toBase36_injective hcontra).symm

/-- Witness for the amended C5 at a concrete input. -/
theorem claim5_amended_witness :
    (handleHotUpdate false "/p/icon.svg" "/p/icon.svg" 2 (some [⟨16, [7]⟩])
        ⟨some [1], none, toBase36 1⟩).1.generatedIco
      = some (packIcoBytes [⟨16, [7]⟩])
      ∧ (handleHotUpdate false "/p/icon.svg" "/p/icon.svg" 2 (some [⟨16, [7]⟩])
            ⟨some [1], none, toBase36 1⟩).2
          = [(handleHotUpdate false "/p/icon.svg" "/p/icon.svg" 2 (some [⟨16, [7]⟩])
                ⟨some [1], none, toBase36 1⟩).1.cacheId]
      ∧ (handleHotUpdate false "/p/icon.svg" "/p/icon.svg" 2 (some [⟨16, [7]⟩])
            ⟨some [1], none, toBase36 1⟩).1.cacheId ≠ toBase36 1 :=
  claim5_amended_hot_update false "/p/icon.svg" "/p/icon.svg" 2 1
    [⟨16, [7]⟩] (packIcoBytes [⟨16, [7]⟩]) [1]
    ⟨some [1], none, toBase36 1⟩
    rfl (by decide) rfl rfl (by decide)

/-! ### Claim theorem for the HTML tag builder -/

/-- C8: `buildFaviconTags` returns exactly 2 tags in minimal mode with SVG
    input and source emitted; exactly 1 tag in minimal mode with raster
    input and no source emitted; and `1 (+1 for SVG input with source
    emitted) + N` tags in full mode with `N` per-size files. -/
theorem claim8_buildFaviconTags_count (opts : FaviconTagOptions) :
    (opts.mode = .minimal → opts.inputFormat = "svg" →
        opts.sourceEmitted = true → (buildFaviconTags opts).length = 2)
      ∧ (opts.mode = .minimal → opts.inputFormat ≠ "svg" →
        opts.sourceEmitted = false → (buildFaviconTags opts).length = 1)
      ∧ (∀ files, opts.mode = .full → opts.sizedFiles = some files →
        (buildFaviconTags opts).length
          = 1 + (if opts.inputFormat = "svg" ∧ opts.sourceEmitted = true
              then 1 else 0) + files.length) := by
  refine ⟨?_, ?_, ?_⟩
  · intro hm hf hs
    simp [buildFaviconTags, hm, hf, hs]
  · intro hm hf hs
    simp [buildFaviconTags, hm, hf, hs]
  · intro files hm hsf
    by_cases hf : opts.inputFormat = "svg" <;> cases hs : opts.sourceEmitted <;>
      simp [buildFaviconTags, hm, hsf, hf, hs] <;> omega

/-- Witness for C8 at concrete inputs, one per scenario. -/
theorem claim8_witness :
    (buildFaviconTags
        ⟨"favicon.ico", [16, 32], true, "icon.svg", "svg",
          .minimal, none, none⟩).length = 2
      ∧ (buildFaviconTags
          ⟨"favicon.ico", [16], false, "icon.png", "png",
            .minimal, none, none⟩).length = 1
      ∧ (buildFaviconTags
          ⟨"favicon.ico", [16, 32], true, "icon.svg", "svg", .full,
            some [⟨"favicon-16x16.png", 16, "png"⟩,
                  ⟨"favicon-32x32.png", 32, "png"⟩], none⟩).length = 4 := by
  refine ⟨?_, ?_, ?_⟩
  · exact (claim8_buildFaviconTags_count _).1 rfl rfl rfl
  · exact (claim8_buildFaviconTags_count _).2.1 rfl (by decide) rfl
  · have h := (claim8_buildFaviconTags_count
      ⟨"favicon.ico", [16, 32], true, "icon.svg", "svg", .full,
        some [⟨"favicon-16x16.png", 16, "png"⟩,
              ⟨"favicon-32x32.png", 32, "png"⟩], none⟩).2.2
      [⟨"favicon-16x16.png", 16, "png"⟩, ⟨"favicon-32x32.png", 32, "png"⟩]
      rfl rfl
    simpa using h

/-! ### Matcher lemmas: positive side -/

theorem eatCI_of_ciEq (pat : List (Char × Char)) :
    ∀ (rel t : List Char), ciEq rel pat = true → eatCI pat (rel ++ t) = some t := by
  induction pat with
  | nil =>
    intro rel t h
    cases rel with
    | nil => rfl
    | cons c cs => simp [ciEq] at h
  | cons pr ps ih =>
    intro rel t h
    obtain ⟨lo, up⟩ := pr
    cases rel with
    | nil => simp [ciEq] at h
    | cons c cs =>
      simp only [ciEq, Bool.and_eq_true] at h
      simp only [List.cons_append, eatCI, if_pos h.1]
      exact ih cs t h.2

theorem ciEq_append_decomp (p1 p2 : List (Char × Char)) :
    ∀ rel : List Char, ciEq rel (p1 ++ p2) = true →
      ∃ r1 r2, rel = r1 ++ r2 ∧ ciEq r1 p1 = true ∧ ciEq r2 p2 = true := by
  induction p1 with
  | nil =>
    intro rel h
    exact ⟨[], rel, rfl, rfl, h⟩
  | cons pr ps ih =>
    intro rel h
    obtain ⟨lo, up⟩ := pr
    cases rel with
    | nil => simp [ciEq] at h
    | cons c cs =>
      simp only [List.cons_append, ciEq, Bool.and_eq_true] at h
      obtain ⟨r1, r2, heq, h1, h2⟩ := ih cs h.2
      refine ⟨c :: r1, r2, by simp [heq], ?_, h2⟩
      simp [ciEq, h.1, h1]

theorem ciEq_cons_inv (lo up : Char) (ps : List (Char × Char))
    (rel : List Char) (h : ciEq rel ((lo, up) :: ps) = true) :
    ∃ c cs, rel = c :: cs ∧ (c == lo || c == up) = true ∧ ciEq cs ps = true := by
  cases rel with
  | nil => simp [ciEq] at h
  | cons c cs =>
    simp only [ciEq, Bool.and_eq_true] at h
    exact ⟨c, cs, rfl, h.1, h.2⟩

theorem char_of_beq {c d : Char} (h : (c == d) = true) : c = d := by
  exact (beq_iff_eq).mp h

theorem ci_i_facts {c : Char} (h : (c == 'i' || c == 'I') = true) :
    isWs c = false ∧ (c == 's' || c == 'S') = false := by
  rcases Bool.or_eq_true _ _ |>.mp h with h1 | h1
  · rw [char_of_beq h1]
    decide
  · rw [char_of_beq h1]
    decide

theorem munchWs_not_ws {c : Char} (l : List Char) (h : isWs c = false) :
    munchWs (c :: l) = c :: l := by
  simp [munchWs, h]

theorem mem_gt_append (A : List Char) : '>' ∈ A ++ ['>'] := by simp

theorem afterOpenQuote_of (rel4 : List Char) (h : ciEq rel4 iconLit = true)
    (q2 : Char) (hq : (q2 == dq || q2 == sq) = true) (rest : List Char)
    (hgt : '>' ∈ rest) :
    afterOpenQuote (rel4 ++ (q2 :: rest)) = true := by
  unfold afterOpenQuote
  rw [eatCI_of_ciEq iconLit rel4 (q2 :: rest) h]
  simp [hq, hgt]

theorem shortcutOrIcon_of_icon (rel4 : List Char) (h : ciEq rel4 iconLit = true)
    (q2 : Char) (hq : (q2 == dq || q2 == sq) = true) (rest : List Char)
    (hgt : '>' ∈ rest) :
    shortcutOrIcon (rel4 ++ (q2 :: rest)) = true := by
  unfold shortcutOrIcon
  rw [afterOpenQuote_of rel4 h q2 hq rest hgt]
  simp

theorem shortcutOrIcon_of_shortcut (rel : List Char)
    (h : ciEq rel shortcutSpaceIconLit = true)
    (q2 : Char) (hq : (q2 == dq || q2 == sq) = true) (rest : List Char)
    (hgt : '>' ∈ rest) :
    shortcutOrIcon (rel ++ (q2 :: rest)) = true := by
  obtain ⟨r1, r2, heq, h1, h2⟩ :=
    ciEq_append_decomp shortcutLit ((' ', ' ') :: iconLit) rel h
  obtain ⟨c, cs, heq2, hc, h3⟩ := ciEq_cons_inv ' ' ' ' iconLit r2 h2
  have hc' : c = ' ' := by
    rcases Bool.or_eq_true _ _ |>.mp hc with h4 | h4 <;> exact char_of_beq h4
  subst hc'
  subst heq2
  subst heq
  obtain ⟨ci, csi, heqi, hci, hrest⟩ :=
    ciEq_cons_inv 'i' 'I' (ciPat ['c', 'o', 'n']) cs h3
  have hwsci : isWs ci = false := (ci_i_facts hci).1
  have hmw : munchWs (cs ++ q2 :: rest) = cs ++ q2 :: rest := by
    rw [heqi]
    exact munchWs_not_ws _ hwsci
  have hre : (r1 ++ ' ' :: cs) ++ q2 :: rest
      = r1 ++ (' ' :: (cs ++ q2 :: rest)) := by
    simp
  unfold shortcutOrIcon
  rw [hre, eatCI_of_ciEq shortcutLit r1 _ h1]
  show ((isWs ' ' && afterOpenQuote (munchWs (cs ++ q2 :: rest)))
      || afterOpenQuote (r1 ++ (' ' :: (cs ++ q2 :: rest)))) = true
  rw [hmw, afterOpenQuote_of cs h3 q2 hq rest hgt]
  simp [isWs]

theorem relLit_eq : relLit = [('r', 'R'), ('e', 'E'), ('l', 'L')] := by decide

theorem tryRel_hit (q : Char) (hq : (q == dq || q == sq) = true)
    (rel rest : List Char)
    (hrel : ciEq rel iconLit = true ∨ ciEq rel shortcutSpaceIconLit = true)
    (hgt : '>' ∈ rest) :
    tryRel ('r' :: 'e' :: 'l' :: '=' :: q :: (rel ++ (q :: rest))) = true := by
  have hsoi : shortcutOrIcon (rel ++ (q :: rest)) = true := by
    rcases hrel with h | h
    · exact shortcutOrIcon_of_icon rel h q hq rest hgt
    · exact shortcutOrIcon_of_shortcut rel h q hq rest hgt
  rcases Bool.or_eq_true _ _ |>.mp hq with h1 | h1
  · have hqe := char_of_beq h1
    subst hqe
    show ((dq == dq || dq == sq) && shortcutOrIcon (rel ++ (dq :: rest))) = true
    rw [hsoi]
    decide
  · have hqe := char_of_beq h1
    subst hqe
    show ((sq == dq || sq == sq) && shortcutOrIcon (rel ++ (sq :: rest))) = true
    rw [hsoi]
    decide

theorem scanRel_append_true (l1 l2 : List Char) (pv : Bool)
    (h1 : ∀ c ∈ l1, (c == '>') = false)
    (h2 : ∀ pv2, scanRel l2 pv2 = true) :
    scanRel (l1 ++ l2) pv = true := by
  induction l1 generalizing pv with
  | nil => exact h2 pv
  | cons c cs ih =>
    have hc := h1 c (List.mem_cons_self c cs)
    show scanRel (c :: (cs ++ l2)) pv = true
    have hrec := ih (!isWordChar c) (fun d hd => h1 d (List.mem_cons_of_mem c hd))
    simp [scanRel, hc, hrec]

theorem scanRel_hit (q : Char) (hq : (q == dq || q == sq) = true)
    (rel rest : List Char)
    (hrel : ciEq rel iconLit = true ∨ ciEq rel shortcutSpaceIconLit = true)
    (hgt : '>' ∈ rest) (pv : Bool) :
    scanRel (' ' :: 'r' :: 'e' :: 'l' :: '=' :: q :: (rel ++ (q :: rest))) pv
      = true := by
  have ht := tryRel_hit q hq rel rest hrel hgt
  have h0 : tryRel (' ' :: 'r' :: 'e' :: 'l' :: '=' :: q :: (rel ++ (q :: rest)))
      = false := rfl
  simp [scanRel, h0, ht, isWordChar]

theorem matchAt_render (attrs : List Char) (q : Char)
    (hq : (q == dq || q == sq) = true) (rel rest : List Char)
    (hrel : ciEq rel iconLit = true ∨ ciEq rel shortcutSpaceIconLit = true)
    (hattrs : ∀ c ∈ attrs, (c == '>') = false) :
    matchAt (renderLink attrs q rel rest) = true := by
  have hscan : scanRel (' ' :: (attrs
      ++ ((' ' :: 'r' :: 'e' :: 'l' :: '=' :: q :: rel) ++ (q :: rest ++ ['>']))))
      false = true := by
    show scanRel ((' ' :: attrs)
      ++ ((' ' :: 'r' :: 'e' :: 'l' :: '=' :: q :: rel) ++ (q :: rest ++ ['>'])))
      false = true
    apply scanRel_append_true
    · intro c hc
      rcases List.mem_cons.mp hc with h | h
      · rw [h]
        decide
      · exact hattrs c h
    · intro pv2
      exact scanRel_hit q hq rel (rest ++ ['>']) hrel (mem_gt_append rest) pv2
  show (!isWordChar ' ' && scanRel (' ' :: (attrs
      ++ ((' ' :: 'r' :: 'e' :: 'l' :: '=' :: q :: rel) ++ (q :: rest ++ ['>']))))
      false) = true
  rw [hscan]
  decide

theorem regexTest_render_pos (attrs : List Char) (q : Char)
    (hq : (q == dq || q == sq) = true) (rel rest : List Char)
    (hrel : ciEq rel iconLit = true ∨ ciEq rel shortcutSpaceIconLit = true)
    (hattrs : ∀ c ∈ attrs, (c == '>') = false) :
    regexTest (renderLink attrs q rel rest) = true := by
  have hm := matchAt_render attrs q hq rel rest hrel hattrs
  rw [show regexTest (renderLink attrs q rel rest)
      = (matchAt (renderLink attrs q rel rest)
          || regexTest ('l' :: 'i' :: 'n' :: 'k' :: ((' ' :: attrs)
              ++ ((' ' :: 'r' :: 'e' :: 'l' :: '=' :: q :: rel)
                  ++ (q :: rest ++ ['>']))))) from rfl]
  rw [hm]
  simp

/-! ### Matcher lemmas: negative side

A suffix of the form `h ++ [q, '>']` with `h` free of `>` and quotes and `q`
a quote models the tail of a tag from the start of a quote-free attribute
value: no match attempt can complete inside it, because completing requires
`icon` followed by a quote before the closing `>`. -/

theorem quote_facts {q : Char} (hq : (q == dq || q == sq) = true) :
    isWs q = false ∧ isWordChar q = false ∧ (q == '>') = false
      ∧ (q == '<') = false ∧ (q == '=') = false := by
  rcases Bool.or_eq_true _ _ |>.mp hq with h1 | h1 <;>
    rw [char_of_beq h1] <;> decide

theorem cleanChar_facts {c : Char} (h : cleanChar c = true) :
    (c == '>') = false ∧ (c == dq) = false ∧ (c == sq) = false := by
  simp only [cleanChar, Bool.and_eq_true, Bool.not_eq_true'] at h
  exact ⟨h.1.1, h.1.2, h.2⟩

theorem patOk_facts {pat : List (Char × Char)} (hpat : patOkB pat = true)
    {lo up : Char} (hmem : (lo, up) ∈ pat) :
    (dq == lo || dq == up) = false ∧ (sq == lo || sq == up) = false
      ∧ (('>' : Char) == lo || ('>' : Char) == up) = false := by
  simp only [patOkB, List.all_eq_true] at hpat
  have h := hpat (lo, up) hmem
  simp only [Bool.and_eq_true, Bool.not_eq_true'] at h
  exact ⟨h.1.1, h.1.2, h.2⟩

theorem eatCI_clean (q : Char) (hq : (q == dq || q == sq) = true) :
    ∀ (pat : List (Char × Char)), patOkB pat = true →
      ∀ (h s2 : List Char), (∀ c ∈ h, cleanChar c = true) →
        eatCI pat (h ++ [q, '>']) = some s2 →
        ∃ h2, s2 = h2 ++ [q, '>'] ∧ ∀ c ∈ h2, cleanChar c = true := by
  intro pat
  induction pat with
  | nil =>
    intro _ h s2 hcl he
    simp only [eatCI, Option.some.injEq] at he
    exact ⟨h, he.symm, hcl⟩
  | cons pr ps ih =>
    intro hpat h s2 hcl he
    obtain ⟨lo, up⟩ := pr
    have hpat' : patOkB ps = true := by
      simp only [patOkB, List.all_eq_true] at hpat ⊢
      intro x hx
      exact hpat x (List.mem_cons_of_mem _ hx)
    cases h with
    | nil =>
      exfalso
      have hfq : (q == lo || q == up) = false := by
        rcases Bool.or_eq_true _ _ |>.mp hq with h1 | h1 <;> rw [char_of_beq h1]
        · exact (patOk_facts hpat (List.mem_cons_self _ _)).1
        · exact (patOk_facts hpat (List.mem_cons_self _ _)).2.1
      simp [eatCI, hfq] at he
    | cons c h' =>
      by_cases hcc : (c == lo || c == up) = true
      · simp only [List.cons_append, eatCI, if_pos hcc] at he
        exact ih hpat' h' s2 (fun d hd => hcl d (List.mem_cons_of_mem c hd)) he
      · rw [Bool.not_eq_true] at hcc
        simp [eatCI, hcc] at he

theorem munchWs_clean (q : Char) (hq : (q == dq || q == sq) = true)
    (h : List Char) :
    (∀ c ∈ h, cleanChar c = true) →
      ∃ h2, munchWs (h ++ [q, '>']) = h2 ++ [q, '>']
        ∧ ∀ c ∈ h2, cleanChar c = true := by
  induction h with
  | nil =>
    intro _
    refine ⟨[], ?_, by simp⟩
    simp [munchWs, (quote_facts hq).1]
  | cons c h' ih =>
    intro hcl
    cases hw : isWs c with
    | true =>
      obtain ⟨h2, he, hc2⟩ := ih (fun d hd => hcl d (List.mem_cons_of_mem c hd))
      refine ⟨h2, ?_, hc2⟩
      simp [munchWs, hw, he]
    | false =>
      refine ⟨c :: h', ?_, hcl⟩
      simp [munchWs, hw]

theorem eatChar_clean (q : Char) (ch : Char) (hne : (q == ch) = false)
    (h s2 : List Char) (hcl : ∀ c ∈ h, cleanChar c = true)
    (he : eatChar ch (h ++ [q, '>']) = some s2) :
    ∃ h2, s2 = h2 ++ [q, '>'] ∧ ∀ c ∈ h2, cleanChar c = true := by
  cases h with
  | nil => simp [eatChar, hne] at he
  | cons c h' =>
    by_cases hcc : (c == ch) = true
    · simp only [List.cons_append, eatChar, if_pos hcc, Option.some.injEq] at he
      exact ⟨h', he.symm, fun d hd => hcl d (List.mem_cons_of_mem c hd)⟩
    · rw [Bool.not_eq_true] at hcc
      simp [eatChar, hcc] at he

theorem tryRel_clean (q : Char) (hq : (q == dq || q == sq) = true)
    (h : List Char) (hcl : ∀ c ∈ h, cleanChar c = true) :
    tryRel (h ++ [q, '>']) = false := by
  rcases he1 : eatCI relLit (h ++ [q, '>']) with - | s1
  · simp [tryRel, he1]
  · obtain ⟨h1, hs1, hcl1⟩ := eatCI_clean q hq relLit (by decide) h s1 hcl he1
    subst hs1
    obtain ⟨h2, hm2, hcl2⟩ := munchWs_clean q hq h1 hcl1
    rcases he3 : eatChar '=' (h2 ++ [q, '>']) with - | s3
    · simp [tryRel, he1, hm2, he3]
    · obtain ⟨h3, hs3, hcl3⟩ :=
        eatChar_clean q '=' (quote_facts hq).2.2.2.2 h2 s3 hcl2 he3
      subst hs3
      obtain ⟨h4, hm4, hcl4⟩ := munchWs_clean q hq h3 hcl3
      cases h4 with
      | nil =>
        have hsoi : shortcutOrIcon ['>'] = false := by decide
        simp [tryRel, he1, hm2, he3, hm4, hsoi]
      | cons c4 cs4 =>
        have hc4 := cleanChar_facts (hcl4 c4 (List.mem_cons_self _ _))
        simp [tryRel, he1, hm2, he3, hm4, hc4.2.1, hc4.2.2]

theorem scanRel_clean (q : Char) (hq : (q == dq || q == sq) = true)
    (h : List Char) :
    (∀ c ∈ h, cleanChar c = true) → ∀ pv, scanRel (h ++ [q, '>']) pv = false := by
  induction h with
  | nil =>
    intro _ pv
    have ht := tryRel_clean q hq [] (by simp)
    simp only [List.nil_append] at ht
    simp [scanRel, (quote_facts hq).2.2.1, ht]
  | cons c h' ih =>
    intro hcl pv
    have hc := cleanChar_facts (hcl c (List.mem_cons_self _ _))
    have ht := tryRel_clean q hq (c :: h') hcl
    simp only [List.cons_append] at ht
    have hrec := ih (fun d hd => hcl d (List.mem_cons_of_mem c hd)) (!isWordChar c)
    simp [scanRel, hc.1, ht, hrec]

theorem matchAt_clean (q : Char) (hq : (q == dq || q == sq) = true)
    (h : List Char) (hcl : ∀ c ∈ h, cleanChar c = true) :
    matchAt (h ++ [q, '>']) = false := by
  cases h with
  | nil =>
    have hne : q ≠ '<' := by
      have h1 := (quote_facts hq).2.2.2.1
      simpa using h1
    simp [matchAt, eatChar, hne]
  | cons c h' =>
    by_cases hc : (c == '<') = true
    · rcases he : eatCI linkLit (h' ++ [q, '>']) with - | s2
      · simp [matchAt, eatChar, hc, he]
      · obtain ⟨h2, hs2, hcl2⟩ := eatCI_clean q hq linkLit (by decide) h' s2
          (fun d hd => hcl d (List.mem_cons_of_mem c hd)) he
        subst hs2
        cases h2 with
        | nil =>
          have hsc := scanRel_clean q hq [] (by simp) false
          simp only [List.nil_append] at hsc
          simp [matchAt, eatChar, hc, he, afterLink, hsc]
        | cons c2 cs2 =>
          have hsc := scanRel_clean q hq (c2 :: cs2) hcl2 false
          simp only [List.cons_append] at hsc
          simp [matchAt, eatChar, hc, he, afterLink, hsc]
    · rw [Bool.not_eq_true] at hc
      simp [matchAt, eatChar, hc]

theorem regexTest_clean (q : Char) (hq : (q == dq || q == sq) = true)
    (h : List Char) :
    (∀ c ∈ h, cleanChar c = true) → regexTest (h ++ [q, '>']) = false := by
  induction h with
  | nil =>
    intro _
    have hne : q ≠ '<' := by
      have h1 := (quote_facts hq).2.2.2.1
      simpa using h1
    simp [regexTest, matchAt, eatChar, hne]
  | cons c h' ih =>
    intro hcl
    have hm := matchAt_clean q hq (c :: h') hcl
    simp only [List.cons_append] at hm
    have hrec := ih (fun d hd => hcl d (List.mem_cons_of_mem c hd))
    simp [regexTest, hm, hrec]

theorem regexTest_simple_neg (q : Char) (hq : (q == dq || q == sq) = true)
    (rel href : List Char)
    (hrel : rel = appleTouchIconRel ∨ rel = stylesheetRel)
    (hcl : ∀ c ∈ href, cleanChar c = true) :
    regexTest (renderSimpleLink q rel href) = false := by
  rcases Bool.or_eq_true _ _ |>.mp hq with h1 | h1 <;>
    have hqe := char_of_beq h1 <;> subst hqe <;> rcases hrel with hr | hr <;>
    subst hr
  · have h0 : matchAt (renderSimpleLink dq appleTouchIconRel href) = false := by
      show scanRel (href ++ [dq, '>']) true = false
      exact scanRel_clean dq (by decide) href hcl true
    rw [show regexTest (renderSimpleLink dq appleTouchIconRel href)
        = (matchAt (renderSimpleLink dq appleTouchIconRel href)
            || regexTest ('l' :: 'i' :: 'n' :: 'k' :: ' ' :: 'r' :: 'e' :: 'l'
                :: '=' :: dq :: (appleTouchIconRel
                  ++ (dq :: ' ' :: 'h' :: 'r' :: 'e' :: 'f' :: '=' :: dq ::
                    (href ++ [dq, '>']))))) from rfl, h0]
    show regexTest (href ++ [dq, '>']) = false
    exact regexTest_clean dq (by decide) href hcl
  · have h0 : matchAt (renderSimpleLink dq stylesheetRel href) = false := by
      show scanRel (href ++ [dq, '>']) true = false
      exact scanRel_clean dq (by decide) href hcl true
    rw [show regexTest (renderSimpleLink dq stylesheetRel href)
        = (matchAt (renderSimpleLink dq stylesheetRel href)
            || regexTest ('l' :: 'i' :: 'n' :: 'k' :: ' ' :: 'r' :: 'e' :: 'l'
                :: '=' :: dq :: (stylesheetRel
                  ++ (dq :: ' ' :: 'h' :: 'r' :: 'e' :: 'f' :: '=' :: dq ::
                    (href ++ [dq, '>']))))) from rfl, h0]
    show regexTest (href ++ [dq, '>']) = false
    exact regexTest_clean dq (by decide) href hcl
  · have h0 : matchAt (renderSimpleLink sq appleTouchIconRel href) = false := by
      show scanRel (href ++ [sq, '>']) true = false
      exact scanRel_clean sq (by decide) href hcl true
    rw [show regexTest (renderSimpleLink sq appleTouchIconRel href)
        = (matchAt (renderSimpleLink sq appleTouchIconRel href)
            || regexTest ('l' :: 'i' :: 'n' :: 'k' :: ' ' :: 'r' :: 'e' :: 'l'
                :: '=' :: sq :: (appleTouchIconRel
                  ++ (sq :: ' ' :: 'h' :: 'r' :: 'e' :: 'f' :: '=' :: sq ::
                    (href ++ [sq, '>']))))) from rfl, h0]
    show regexTest (href ++ [sq, '>']) = false
    exact regexTest_clean sq (by decide) href hcl
  · have h0 : matchAt (renderSimpleLink sq stylesheetRel href) = false := by
      show scanRel (href ++ [sq, '>']) true = false
      exact scanRel_clean sq (by decide) href hcl true
    rw [show regexTest (renderSimpleLink sq stylesheetRel href)
        = (matchAt (renderSimpleLink sq stylesheetRel href)
            || regexTest ('l' :: 'i' :: 'n' :: 'k' :: ' ' :: 'r' :: 'e' :: 'l'
                :: '=' :: sq :: (stylesheetRel
                  ++ (sq :: ' ' :: 'h' :: 'r' :: 'e' :: 'f' :: '=' :: sq ::
                    (href ++ [sq, '>']))))) from rfl, h0]
    show regexTest (href ++ [sq, '>']) = false
    exact regexTest_clean sq (by decide) href hcl

/-! ### Claim theorems for the stripping matcher -/

/-- C7 counterexample: the matcher DOES match a tag whose rel value is
    `apple-touch-icon` when another attribute value smuggles in a quoted
    `rel='icon'` substring — here
    `<link rel="apple-touch-icon" href="rel='icon' x">` — because the
    pattern `[^>]*\brel\s*=\s*["']...` may find its `rel=` inside an
    attribute value.  This refutes the claim's "matches no tag whose rel
    value is apple-touch-icon". -/
theorem claim7_counterexample :
    regexTest ("<link rel=".data ++ [dq] ++ appleTouchIconRel ++ [dq]
      ++ " href=".data ++ [dq] ++ "rel=".data ++ [sq] ++ "icon".data
      ++ [sq] ++ " x".data ++ [dq] ++ ['>']) = true := by
  decide

/-- C7 amended: the matcher matches every link element
    `<link ATTRS rel=Q REL Q REST>` (attributes free of `>`, either quote,
    any following text) whose rel value is a case variant of `icon` or of
    `shortcut icon`; and it matches no apple-touch-icon or stylesheet link
    tag `<link rel=Q REL Q href=Q HREF Q>` whose href value contains no `>`
    and no quote characters (the quote-character proviso is forced by the
    counterexample). -/
theorem claim7_amended_strip_matcher
    (q : Char) (hq : q = dq ∨ q = sq)
    (attrs rest rel href : List Char)
    (hattrs : ∀ c ∈ attrs, c ≠ '>')
    (hrel : ciEq rel iconLit = true ∨ ciEq rel shortcutSpaceIconLit = true)
    (hclean : ∀ c ∈ href, c ≠ '>' ∧ c ≠ dq ∧ c ≠ sq) :
    regexTest (renderLink attrs q rel rest) = true
      ∧ regexTest (renderSimpleLink q appleTouchIconRel href) = false
      ∧ regexTest (renderSimpleLink q stylesheetRel href) = false := by
  have hqb : (q == dq || q == sq) = true := by
    rcases hq with h | h <;> subst h <;> decide
  have hattrsb : ∀ c ∈ attrs, (c == '>') = false := by
    intro c hc
    simpa using hattrs c hc
  have hcleanb : ∀ c ∈ href, cleanChar c = true := by
    intro c hc
    simp only [cleanChar, Bool.and_eq_true, Bool.not_eq_true']
    have h := hclean c hc
    exact ⟨⟨beq_eq_false_iff_ne.mpr h.1, beq_eq_false_iff_ne.mpr h.2.1⟩,
      beq_eq_false_iff_ne.mpr h.2.2⟩
  exact ⟨regexTest_render_pos attrs q hqb rel rest hrel hattrsb,
    regexTest_simple_neg q hqb appleTouchIconRel href (Or.inl rfl) hcleanb,
    regexTest_simple_neg q hqb stylesheetRel href (Or.inr rfl) hcleanb⟩

/-- Witness for the amended C7 at a concrete input. -/
theorem claim7_amended_witness :
    regexTest (renderLink ['x'] dq ['I', 'C', 'O', 'N'] [' ', 'h']) = true
      ∧ regexTest (renderSimpleLink dq appleTouchIconRel ['/', 'a']) = false
      ∧ regexTest (renderSimpleLink dq stylesheetRel ['/', 'a']) = false :=
  claim7_amended_strip_matcher dq (Or.inl rfl) ['x'] [' ', 'h']
    ['I', 'C', 'O', 'N'] ['/', 'a'] (by decide) (Or.inl (by decide)) (by decide)

end SvgToIco
